/-
Verification of the remote-tree and resumable-transfer layer of
`drive.py` (classes `Remotefolder`, `Key`, `ResumableUploadRequest`).

The Google Drive service is embedded as a `Store` of entries; every
operation of the source that talks to the service is translated into a
pure function over that store which additionally records the service
calls it makes (`DriveEvent` / `Event` / `UpEvent` traces), so that
properties such as "no second create request is issued" or "the probe
runs before the first chunk" are statable.
-/
import Mathlib

namespace GDrive

/-- A file entry of the remote store, as returned by the service's
`files().list` reply: an id, a name, the parent it is filed under and
whether its mimeType is the folder mimeType. -/
structure Entry where
  id : Nat
  name : String
  parentId : Nat
  isFolder : Bool
deriving Repr, DecidableEq

/-- The remote store backing the service: the entries it currently holds
and the next fresh id `files().create` will assign. -/
structure Store where
  entries : List Entry
  nextId : Nat
deriving Repr, DecidableEq

/-- An in-memory node of the hierarchy: `Remotefolder` or `Key` from the
source.  Both carry a name and an optional remote id (`remove` sets the
id to `None`; a `Key` may be constructed with no id yet). -/
inductive Node where
  | folder (name : String) (id : Option Nat)
  | key (name : String) (id : Option Nat)
deriving Repr, DecidableEq

/-- The id attribute shared by both classes. -/
def Node.id : Node → Option Nat
  | .folder _ i => i
  | .key _ i => i

/-- The same node with its id attribute overwritten (used by `remove`,
which executes `self.id = None`). -/
def Node.withId : Node → Option Nat → Node
  | .folder n _, i => .folder n i
  | .key n _, i => .key n i

/-- Errors the embedded operations can raise.  `ambiguous`,
`existsNotFolder` and `checksumMismatch` are the source's explicit
`raise Exception(...)` sites; `httpError` is `googleapiclient`'s
`HttpError`; `nameError`, `attributeError` and `typeError` are the
runtime errors Python raises at the corresponding lines. -/
inductive Err where
  | ambiguous (name : String)
  | existsNotFolder (name : String)
  | nameError
  | alreadyExists (name : String)
  | httpError (status : Nat)
  | attributeError
  | typeError
  | checksumMismatch
deriving Repr, DecidableEq

/-- Service calls issued by the tree operations. -/
inductive DriveEvent where
  | listCall (parentId : Option Nat) (name : String)
  | createCall (parentId : Option Nat) (name : String) (isFolder : Bool)
  | deleteCall (id : Option Nat)
deriving Repr, DecidableEq

/-- The entries the service's `files().list` query
`'{this}' in parents and name='{name}'` matches: entries filed under the
formatted id whose name equals `name` exactly.  A node whose id is
`None` formats as the literal `'None'`, which is no entry's parent, so
it matches nothing. -/
def listQuery (st : Store) (pid : Option Nat) (nm : String) : List Entry :=
  st.entries.filter (fun e => some e.parentId == pid && e.name == nm)

/-- Builds the typed child from a reply dict: a `Remotefolder` when the
mimeType is the folder mimeType, a `Key` otherwise
(`Remotefolder._reply_to_object`). -/
def reply_to_object (e : Entry) : Node :=
  if e.isFolder then .folder e.name (some e.id) else .key e.name (some e.id)

/-- `Remotefolder.child`: lists with `pageSize=1`; the reply carries a
`nextPageToken` exactly when more than one entry matches, in which case
the source raises; an empty `files` list returns `None`; otherwise the
single entry is turned into a typed node. -/
def child (st : Store) (self : Node) (nm : String) : Except Err (Option Node) :=
  let ms := listQuery st self.id nm
  if 1 < ms.length then .error (.ambiguous nm)
  else
    match ms.take 1 with
    | [] => .ok none
    | e :: _ => .ok (some (reply_to_object e))

/-- The service's `files().create`: assigns the next fresh id and
appends the entry.  Creating under a node whose id was cleared to `None`
sends the literal `'None'` as parent, which the service rejects. -/
def filesCreate (st : Store) (pid : Option Nat) (nm : String) (isF : Bool) :
    Except Err (Entry × Store) :=
  match pid with
  | none => .error (.httpError 404)
  | some p =>
    let e : Entry := ⟨st.nextId, nm, p, isF⟩
    .ok (e, ⟨st.entries ++ [e], st.nextId + 1⟩)

/-- `Remotefolder.mkdir`: looks the name up; an existing child that has
a `child` attribute (a `Remotefolder`) is returned unchanged, an
existing `Key` raises; otherwise a folder entry is created under this
node and the reply turned into a node.  The third component records the
service calls issued. -/
def mkdir (st : Store) (self : Node) (nm : String) :
    Except Err Node × Store × List DriveEvent :=
  match child st self nm with
  | .error e => (.error e, st, [.listCall self.id nm])
  | .ok (some f) =>
    match f with
    | .folder fn fi => (.ok (.folder fn fi), st, [.listCall self.id nm])
    | .key _ _ => (.error (.existsNotFolder nm), st, [.listCall self.id nm])
  | .ok none =>
    match filesCreate st self.id nm true with
    | .error e => (.error e, st, [.listCall self.id nm])
    | .ok (e, st') =>
      (.ok (.folder e.name (some e.id)), st',
        [.listCall self.id nm, .createCall self.id nm true])

/-- `Remotefolder.upload_key`: when a child of that name already exists
the source executes
`raise Exception("Filename already exists ({name}).".format(name=name))`
— but `name` is not a variable of `upload_key` (the parameter is `key`),
so evaluating the message raises `NameError` instead of the intended
already-exists error.  Otherwise a single-shot create-with-content is
issued and a `Key` carrying the assigned id is returned. -/
def upload_key (st : Store) (self : Node) (key : String) :
    Except Err Node × Store × List DriveEvent :=
  match child st self key with
  | .error e => (.error e, st, [.listCall self.id key])
  | .ok (some _) => (.error .nameError, st, [.listCall self.id key])
  | .ok none =>
    match filesCreate st self.id key false with
    | .error e => (.error e, st, [.listCall self.id key])
    | .ok (e, st') =>
      (.ok (.key key (some e.id)), st',
        [.listCall self.id key, .createCall self.id key false])

/-- The service's `files().delete(fileId=...)`: deleting an id that
names no entry — including the literal `'None'` a cleared id formats
to — fails with an HTTP 404. -/
def filesDelete (st : Store) (fid : Option Nat) : Except Err Store :=
  match fid with
  | none => .error (.httpError 404)
  | some i =>
    if st.entries.any (fun e => e.id == i) then
      .ok ⟨st.entries.filter (fun e => !(e.id == i)), st.nextId⟩
    else .error (.httpError 404)

/-- `Remotefolder.remove` / `Key.remove`: deletes the entry by id and
then executes `self.id = None`, leaving a tombstone node. -/
def remove (st : Store) (self : Node) : Except Err (Node × Store) :=
  match filesDelete st self.id with
  | .error e => .error e
  | .ok st' => .ok (self.withId none, st')

/-- Python's `str.strip('/')` acting on the tail: removes the trailing
run of slashes. -/
def rtrim (l : List Char) : List Char :=
  (l.reverse.dropWhile (fun c => c == '/')).reverse

/-- Python's `path.strip('/')`: removes the leading and the trailing run
of slashes. -/
def stripSl (l : List Char) : List Char :=
  rtrim (l.dropWhile (fun c => c == '/'))

/-- `Remotefolder.child_from_path`: strips slashes, splits at the first
remaining slash, resolves the first segment via `child`, and — when more
segments remain — calls `child_from_path` on the resolved child.  When
the resolved child is `None` or a `Key`, that attribute access raises
`AttributeError` (neither has a `child_from_path` method). -/
def child_from_path (st : Store) (self : Node) (path : List Char) :
    Except Err (Option Node) :=
  match child st self (String.mk ((stripSl path).takeWhile (fun c => !(c == '/')))) with
  | .error e => .error e
  | .ok c =>
    match h : (stripSl path).dropWhile (fun c => !(c == '/')) with
    | [] => .ok c
    | _ :: tail =>
      match c with
      | some (.folder fn fi) => child_from_path st (.folder fn fi) tail
      | some (.key _ _) => .error .attributeError
      | none => .error .attributeError
termination_by path.length
decreasing_by
  have h1 : ((stripSl path).dropWhile (fun c => !(c == '/'))).length ≤
      (stripSl path).length := (List.dropWhile_sublist _).length_le
  have h2 : (stripSl path).length ≤ path.length := by
    unfold stripSl rtrim
    have ha : ((path.dropWhile (fun c => c == '/')).reverse.dropWhile
        (fun c => c == '/')).length ≤
        (path.dropWhile (fun c => c == '/')).reverse.length :=
      (List.dropWhile_sublist _).length_le
    have hb : (path.dropWhile (fun c => c == '/')).length ≤ path.length :=
      (List.dropWhile_sublist _).length_le
    simp only [List.length_reverse] at ha ⊢
    omega
  rw [h] at h1
  simp only [List.length_cons] at h1
  omega

/-- One HTTP response to a range request: the status code, the
`content-length` header the code reads, and the body it writes. -/
structure HttpResp where
  status : Nat
  contentLength : Nat
  body : List Nat
deriving Repr, DecidableEq

/-- The transport consumed by `receive`: a range request with first and
last byte yields a response. -/
def Transport := Nat → Nat → HttpResp

/-- Observable actions of one `receive` invocation: the `with
open(local_file, 'ab')` enter and exit, each range request, each write
to the handle and each `progress_handler` call. -/
inductive Event where
  | fileOpen
  | fileClose
  | rangeReq (first lastByte : Nat)
  | fileWrite (bytes : List Nat)
  | progressEvt (n : Nat)
deriving Repr, DecidableEq

/-- The evolving state of one `receive` invocation: the bytes of the
local destination, the `local_file_size` counter, the values passed to
`progress_handler` in order, and the event trace. -/
structure RecvState where
  file : List Nat
  localSize : Nat
  progress : List Nat
  events : List Event
deriving Repr, DecidableEq

/-- How a `receive` invocation ended: the while loop exited normally,
an exception was raised, or the modelling fuel ran out (never the case
in the theorems below, which always supply enough fuel). -/
inductive RecvOutcome where
  | done
  | raised (e : Err)
  | outOfFuel
deriving Repr, DecidableEq

/-- The while loop of `Key.receive`: while `local_file_size <
remote_file_size`, request
`bytes={local_file_size}-{local_file_size+chunksize-1}`; on a 206 write
the body, advance the counter by the reported `content-length` and call
the progress handler with the new counter; on any other status raise
`HttpError(resp, content)`. -/
def receiveLoop (tr : Transport) (ch remoteSize : Nat) :
    Nat → RecvState → RecvState × RecvOutcome
  | 0, s => if s.localSize < remoteSize then (s, .outOfFuel) else (s, .done)
  | fuel + 1, s =>
    if s.localSize < remoteSize then
      let a := s.localSize
      let b := a + ch - 1
      let r := tr a b
      let s1 : RecvState := { s with events := s.events ++ [.rangeReq a b] }
      if r.status = 206 then
        let ns := s1.localSize + r.contentLength
        receiveLoop tr ch remoteSize fuel
          { file := s1.file ++ r.body
            localSize := ns
            progress := s1.progress ++ [ns]
            events := s1.events ++ [.fileWrite r.body, .progressEvt ns] }
      else (s1, .raised (.httpError r.status))
    else (s, .done)

/-- `Key.receive`: `os.path.getsize` of a missing destination is taken
as 0; the destination is opened once in append mode (`fileOpen`), the
loop runs, and the `with` block closes the handle on every exit path
(`fileClose`).  `localFile` is the destination's contents, `none` when
the file does not exist. -/
def receive (tr : Transport) (localFile : Option (List Nat))
    (remoteSize ch fuel : Nat) : RecvState × RecvOutcome :=
  let init : RecvState :=
    { file := localFile.getD []
      localSize := (localFile.getD []).length
      progress := []
      events := [.fileOpen] }
  let (s, out) := receiveLoop tr ch remoteSize fuel init
  ({ s with events := s.events ++ [.fileClose] }, out)

/-- The well-behaved remote for an object with contents `R`: a range
request is answered with 206, the requested slice of `R`, and a
`content-length` equal to the number of bytes returned. -/
def driveTransport (R : List Nat) : Transport := fun a b =>
  let body := (R.drop a).take (b + 1 - a)
  ⟨206, body.length, body⟩

/-- Reference list of the values passed to the progress handler when
downloading from offset `a` to size `r` in chunks of `ch`. -/
def chunkProg (ch : Nat) : Nat → Nat → Nat → List Nat
  | 0, _, _ => []
  | fuel + 1, a, r =>
    if a < r then min (a + ch) r :: chunkProg ch fuel (min (a + ch) r) r else []

/-- Reference event trace of a complete download of `R` from offset `a`
in chunks of `ch`. -/
def recvEvents (ch : Nat) (R : List Nat) : Nat → Nat → List Event
  | 0, _ => []
  | fuel + 1, a =>
    if a < R.length then
      let body := (R.drop a).take ch
      .rangeReq a (a + ch - 1) :: .fileWrite body ::
        .progressEvt (a + body.length) :: recvEvents ch R fuel (a + body.length)
    else []

/-- Total number of bytes written to the local handle in a trace. -/
def writtenBytes : List Event → Nat
  | [] => 0
  | .fileWrite b :: es => b.length + writtenBytes es
  | _ :: es => writtenBytes es

/-- The `media_body` of a resumable upload: `size()` is the content
length, `chunksize()` the configured chunk size, `getbytes(off, len)`
the corresponding slice. -/
structure MediaBody where
  content : List Nat
  chunkSizeVal : Nat
deriving Repr, DecidableEq

/-- The mutable attributes of `ResumableUploadRequest` the claims are
about: `_resumable_uri`, `_resumable_progress` and the `_range_md5`
object, the latter represented by the list of bytes fed to `update` so
far. -/
structure UploadState where
  resumableUri : Option String
  resumableProgress : Option Nat
  rangeMd5 : List Nat
deriving Repr, DecidableEq

/-- The remote's answer to one chunk `PUT`: `status['status']`, the
`x-range-md5` header echoing the digest of all bytes accepted so far,
and the response body (non-empty exactly when the upload finished). -/
structure ChunkResp where
  statusCode : String
  xRangeMd5 : String
  respBody : String
deriving Repr, DecidableEq

/-- Observable actions of one `next_chunk` call: the session-initiation
`POST`, the zero-length probe `PUT` with `Content-Range: bytes */total`,
the `media_body.getbytes` read and the chunk `PUT` with its
`Content-Range: bytes first-last/total`. -/
inductive UpEvent where
  | initSession
  | probe (total : Nat)
  | getBytesEvt (offset len : Nat)
  | chunkPut (first lastByte total : Nat) (body : List Nat)
deriving Repr, DecidableEq

/-- The `resumable_progress` property: a cached value is returned as is;
with no cache and no session uri yet it returns 0 without probing (and
without caching); otherwise it issues the zero-length probe with
`Content-Range: bytes */{size}`, parses the echoed range header
`bytes=0-{probeEnd}` and caches `probeEnd + 1`. -/
def resumableProgressGet (total probeEnd : Nat) (st : UploadState) :
    Nat × UploadState × List UpEvent :=
  match st.resumableProgress with
  | some p => (p, st, [])
  | none =>
    match st.resumableUri with
    | none => (0, st, [])
    | some _ =>
      (probeEnd + 1, { st with resumableProgress := some (probeEnd + 1) },
        [.probe total])

/-- The `resumable_uri` property: a cached uri is returned as is;
otherwise the session-initiation `POST` is issued and its `location`
header cached. -/
def resumableUriGet (initUri : String) (st : UploadState) :
    String × UploadState × List UpEvent :=
  match st.resumableUri with
  | some u => (u, st, [])
  | none => (initUri, { st with resumableUri := some initUri }, [.initSession])

/-- `ResumableUploadRequest.next_chunk`, line by line: the
`resumable_progress` property is read four times (lines 210, 211 twice,
212) — only the first read can probe, the later reads hit the cache;
`getbytes` reads `content_length = min(size - progress, chunksize)`
bytes at the progress offset; the chunk is `PUT` to `resumable_uri`
(which initiates the session when still unset).  A truthy response body
means the upload finished; a 308 updates `_range_md5` with the bytes
just sent, raises on digest mismatch, and otherwise advances
`_resumable_progress` by the chunk length (`None += int` raises
`TypeError` when the attribute was never set); any other status is
silently returned (the source has no error handling there). -/
def next_chunk (md5hex : List Nat → String) (media : MediaBody)
    (initUri : String) (probeEnd : Nat) (resp : ChunkResp)
    (st : UploadState) : UploadState × List UpEvent × Option Err :=
  let total := media.content.length
  let (p1, st1, ev1) := resumableProgressGet total probeEnd st
  let contentLength := min (total - p1) media.chunkSizeVal
  let (p2, st2, ev2) := resumableProgressGet total probeEnd st1
  let (p3, st3, ev3) := resumableProgressGet total probeEnd st2
  let (p4, st4, ev4) := resumableProgressGet total probeEnd st3
  let sent := (media.content.drop p4).take contentLength
  let (_, st5, ev5) := resumableUriGet initUri st4
  let evs := ev1 ++ ev2 ++ ev3 ++ ev4 ++ [.getBytesEvt p4 contentLength] ++ ev5 ++
    [.chunkPut p2 (p3 + contentLength - 1) total sent]
  if resp.respBody ≠ "" then
    (st5, evs, none)
  else if resp.statusCode = "308" then
    let st6 := { st5 with rangeMd5 := st5.rangeMd5 ++ sent }
    if resp.xRangeMd5 ≠ md5hex st6.rangeMd5 then
      (st6, evs, some .checksumMismatch)
    else
      match st6.resumableProgress with
      | some p => ({ st6 with resumableProgress := some (p + contentLength) }, evs, none)
      | none => (st6, evs, some .typeError)
  else (st5, evs, none)

/-- The length of the chunk sent from offset `p`:
`min(size - progress, chunksize)` of the source. -/
def chunkLen (media : MediaBody) (p : Nat) : Nat :=
  min (media.content.length - p) media.chunkSizeVal

/-- The bytes `getbytes(p, content_length)` reads for the chunk sent
from offset `p`. -/
def chunkBytes (media : MediaBody) (p : Nat) : List Nat :=
  (media.content.drop p).take (chunkLen media p)

theorem receiveLoop_stop (tr : Transport) (ch rs fuel : Nat) (s : RecvState)
    (h : ¬ s.localSize < rs) : receiveLoop tr ch rs fuel s = (s, .done) := by
  cases fuel <;> simp [receiveLoop, h]

theorem receiveLoop_step (tr : Transport) (ch rs fuel : Nat) (s : RecvState)
    (hlt : s.localSize < rs)
    (h206 : (tr s.localSize (s.localSize + ch - 1)).status = 206) :
    receiveLoop tr ch rs (fuel + 1) s =
      receiveLoop tr ch rs fuel
        { file := s.file ++ (tr s.localSize (s.localSize + ch - 1)).body
          localSize :=
            s.localSize + (tr s.localSize (s.localSize + ch - 1)).contentLength
          progress := s.progress ++
            [s.localSize + (tr s.localSize (s.localSize + ch - 1)).contentLength]
          events := s.events ++ [.rangeReq s.localSize (s.localSize + ch - 1),
            .fileWrite (tr s.localSize (s.localSize + ch - 1)).body,
            .progressEvt
              (s.localSize + (tr s.localSize (s.localSize + ch - 1)).contentLength)] } := by
  simp [receiveLoop, hlt, h206]

theorem receiveLoop_abort (tr : Transport) (ch rs fuel : Nat) (s : RecvState)
    (hlt : s.localSize < rs)
    (hst : (tr s.localSize (s.localSize + ch - 1)).status ≠ 206) :
    receiveLoop tr ch rs (fuel + 1) s =
      ({ s with events := s.events ++ [.rangeReq s.localSize (s.localSize + ch - 1)] },
        .raised (.httpError (tr s.localSize (s.localSize + ch - 1)).status)) := by
  simp [receiveLoop, hlt, hst]

theorem take_append_drop_take (l : List Nat) (ch : Nat) :
    l.take ch ++ l.drop (l.take ch).length = l := by
  rw [List.length_take]
  rcases Nat.le_total ch l.length with h | h
  · rw [Nat.min_eq_left h, List.take_append_drop]
  · rw [Nat.min_eq_right h, List.drop_length, List.append_nil,
      List.take_of_length_le h]

theorem receiveLoop_honest (R : List Nat) (ch : Nat) (hch : 0 < ch) :
    ∀ fuel (s : RecvState), s.localSize ≤ R.length →
      R.length - s.localSize ≤ fuel →
      receiveLoop (driveTransport R) ch R.length fuel s =
        ({ file := s.file ++ R.drop s.localSize
           localSize := R.length
           progress := s.progress ++ chunkProg ch fuel s.localSize R.length
           events := s.events ++ recvEvents ch R fuel s.localSize }, .done) := by
  intro fuel
  induction fuel with
  | zero =>
    intro s h1 h2
    obtain ⟨f, l, p, e⟩ := s
    simp only at h1 h2
    have heq : l = R.length := by omega
    rw [receiveLoop_stop _ _ _ _ _ (by simp only; omega)]
    simp [chunkProg, recvEvents, List.drop_eq_nil_of_le (by omega : R.length ≤ l), heq]
  | succ fuel ih =>
    intro s h1 h2
    by_cases hlt : s.localSize < R.length
    · have hx : s.localSize + ch - 1 + 1 - s.localSize = ch := by omega
      have hb : (driveTransport R s.localSize (s.localSize + ch - 1)).body =
          (R.drop s.localSize).take ch := by
        simp [driveTransport, hx]
      have hbl : ((R.drop s.localSize).take ch).length =
          min ch (R.length - s.localSize) := by
        simp [List.length_take, List.length_drop]
      have hcl : (driveTransport R s.localSize (s.localSize + ch - 1)).contentLength =
          min ch (R.length - s.localSize) := by
        simp [driveTransport, hx, List.length_take, List.length_drop]
      have hmin1 : 1 ≤ min ch (R.length - s.localSize) := by omega
      rw [receiveLoop_step _ _ _ _ _ hlt (by simp [driveTransport])]
      rw [show
          ({ file := s.file ++ (driveTransport R s.localSize (s.localSize + ch - 1)).body
             localSize := s.localSize +
               (driveTransport R s.localSize (s.localSize + ch - 1)).contentLength
             progress := s.progress ++ [s.localSize +
               (driveTransport R s.localSize (s.localSize + ch - 1)).contentLength]
             events := s.events ++
               [.rangeReq s.localSize (s.localSize + ch - 1),
                .fileWrite (driveTransport R s.localSize (s.localSize + ch - 1)).body,
                .progressEvt (s.localSize +
                  (driveTransport R s.localSize (s.localSize + ch - 1)).contentLength)] }
            : RecvState) =
          { file := s.file ++ (R.drop s.localSize).take ch
            localSize := s.localSize + min ch (R.length - s.localSize)
            progress := s.progress ++ [s.localSize + min ch (R.length - s.localSize)]
            events := s.events ++
              [.rangeReq s.localSize (s.localSize + ch - 1),
               .fileWrite ((R.drop s.localSize).take ch),
               .progressEvt (s.localSize + min ch (R.length - s.localSize))] }
        from by rw [hb, hcl]]
      rw [ih _ (by simp only; omega) (by simp only; omega)]
      have hfile : (R.drop s.localSize).take ch ++
          R.drop (s.localSize + min ch (R.length - s.localSize)) = R.drop s.localSize := by
        have h3 := take_append_drop_take (R.drop s.localSize) ch
        rw [hbl] at h3
        rw [← List.drop_drop]
        exact h3
      have hm : min (s.localSize + ch) R.length =
          s.localSize + min ch (R.length - s.localSize) := by omega
      have hprog : chunkProg ch (fuel + 1) s.localSize R.length =
          (s.localSize + min ch (R.length - s.localSize)) ::
            chunkProg ch fuel (s.localSize + min ch (R.length - s.localSize)) R.length := by
        rw [chunkProg, if_pos hlt, hm]
      have hev : recvEvents ch R (fuel + 1) s.localSize =
          .rangeReq s.localSize (s.localSize + ch - 1) ::
          .fileWrite ((R.drop s.localSize).take ch) ::
          .progressEvt (s.localSize + min ch (R.length - s.localSize)) ::
            recvEvents ch R fuel (s.localSize + min ch (R.length - s.localSize)) := by
        rw [recvEvents, if_pos hlt]
        simp [hbl]
      rw [hprog, hev]
      simp only [List.append_assoc]
      rw [hfile]
      simp
    · have heq : s.localSize = R.length := by omega
      obtain ⟨f, l, p, e⟩ := s
      simp only at hlt heq
      rw [receiveLoop_stop _ _ _ _ _ hlt]
      rw [chunkProg, recvEvents]
      simp [hlt, List.drop_eq_nil_of_le (by omega : R.length ≤ l), heq]

theorem chunkProg_of_not_lt (ch fuel a r : Nat) (h : ¬ a < r) :
    chunkProg ch fuel a r = [] := by
  cases fuel <;> simp [chunkProg, h]

theorem chunkProg_getLast (ch : Nat) (hch : 0 < ch) :
    ∀ fuel a r, a < r → r - a ≤ fuel →
      (chunkProg ch fuel a r).getLast? = some r := by
  intro fuel
  induction fuel with
  | zero => intro a r h1 h2; omega
  | succ fuel ih =>
    intro a r h1 h2
    rw [chunkProg, if_pos h1]
    by_cases hm : min (a + ch) r < r
    · have hr := ih (min (a + ch) r) r hm (by omega)
      cases hrest : chunkProg ch fuel (min (a + ch) r) r with
      | nil => rw [hrest] at hr; simp at hr
      | cons b t =>
        rw [hrest] at hr
        rw [List.getLast?_cons_cons]
        exact hr
    · have hmr : min (a + ch) r = r := by omega
      rw [chunkProg_of_not_lt ch fuel _ r hm]
      simp [hmr]

theorem writtenBytes_append (l1 l2 : List Event) :
    writtenBytes (l1 ++ l2) = writtenBytes l1 + writtenBytes l2 := by
  induction l1 with
  | nil => simp [writtenBytes]
  | cons e t ih => cases e <;> simp [writtenBytes, ih] <;> omega

theorem recvEvents_writtenBytes (R : List Nat) (ch : Nat) (hch : 0 < ch) :
    ∀ fuel a, a ≤ R.length → R.length - a ≤ fuel →
      writtenBytes (recvEvents ch R fuel a) = R.length - a := by
  intro fuel
  induction fuel with
  | zero =>
    intro a h1 h2
    rw [recvEvents]
    simp [writtenBytes]
    omega
  | succ fuel ih =>
    intro a h1 h2
    by_cases hlt : a < R.length
    · rw [recvEvents, if_pos hlt]
      have hbl : ((R.drop a).take ch).length = min ch (R.length - a) := by
        simp [List.length_take, List.length_drop]
      have hmin1 : 1 ≤ min ch (R.length - a) := by omega
      have ih2 := ih (a + ((R.drop a).take ch).length)
        (by rw [hbl]; omega) (by rw [hbl]; omega)
      simp only [writtenBytes]
      rw [ih2, hbl]
      omega
    · rw [recvEvents, if_neg hlt]
      simp [writtenBytes]
      omega

theorem receiveLoop_events_extra (tr : Transport) (ch rs : Nat) :
    ∀ fuel (s : RecvState), ∃ ex,
      (receiveLoop tr ch rs fuel s).1.events = s.events ++ ex ∧
        ∀ e ∈ ex, e ≠ Event.fileOpen ∧ e ≠ Event.fileClose := by
  intro fuel
  induction fuel with
  | zero =>
    intro s
    by_cases h : s.localSize < rs <;>
      exact ⟨[], by simp [receiveLoop, h], by simp⟩
  | succ fuel ih =>
    intro s
    by_cases hlt : s.localSize < rs
    · by_cases h206 : (tr s.localSize (s.localSize + ch - 1)).status = 206
      · rw [receiveLoop_step tr ch rs fuel s hlt h206]
        obtain ⟨ex, hex, hmem⟩ := ih
          { file := s.file ++ (tr s.localSize (s.localSize + ch - 1)).body
            localSize :=
              s.localSize + (tr s.localSize (s.localSize + ch - 1)).contentLength
            progress := s.progress ++
              [s.localSize + (tr s.localSize (s.localSize + ch - 1)).contentLength]
            events := s.events ++ [.rangeReq s.localSize (s.localSize + ch - 1),
              .fileWrite (tr s.localSize (s.localSize + ch - 1)).body,
              .progressEvt
                (s.localSize + (tr s.localSize (s.localSize + ch - 1)).contentLength)] }
        refine ⟨[.rangeReq s.localSize (s.localSize + ch - 1),
          .fileWrite (tr s.localSize (s.localSize + ch - 1)).body,
          .progressEvt (s.localSize +
            (tr s.localSize (s.localSize + ch - 1)).contentLength)] ++ ex, ?_, ?_⟩
        · rw [hex]
          simp [List.append_assoc]
        · intro e he
          simp only [List.mem_append, List.mem_cons, List.not_mem_nil] at he
          rcases he with (h | h | h | h) | h

          · simp [h]
          · simp [h]
          · simp [h]
          · exact absurd h (by simp)
          · exact hmem e h
      · rw [receiveLoop_abort tr ch rs fuel s hlt h206]
        exact ⟨[.rangeReq s.localSize (s.localSize + ch - 1)], by simp, by simp⟩
    · rw [receiveLoop_stop tr ch rs _ s hlt]
      exact ⟨[], by simp, by simp⟩

/-- C1: `receive` against a well-behaved remote of contents `R` starts
at the local size (0 for a missing destination: `receive tr none ... =
receive tr (some []) ...`), issues the range requests
`[localSize, localSize+chunkSize-1]` recorded in `recvEvents`, appends
the returned bytes, advances by the reported content-length (the
successive progress values `chunkProg`, each `min (a+ch)` of the
remote size), calls the progress handler after each chunk, terminates
with `localSize = remoteSize`, and the final progress value is the
remote size. -/
theorem receive_chunk_accounting (R : List Nat) (L : Option (List Nat)) (ch : Nat)
    (hch : 0 < ch) (hL : (L.getD []).length ≤ R.length) :
    receive (driveTransport R) L R.length ch R.length =
      ({ file := L.getD [] ++ R.drop (L.getD []).length
         localSize := R.length
         progress := chunkProg ch R.length (L.getD []).length R.length
         events := .fileOpen ::
           (recvEvents ch R R.length (L.getD []).length ++ [.fileClose]) }, .done) ∧
    ((L.getD []).length < R.length →
      (chunkProg ch R.length (L.getD []).length R.length).getLast? = some R.length) ∧
    (∀ rs' ch' f', receive (driveTransport R) none rs' ch' f' =
      receive (driveTransport R) (some []) rs' ch' f') := by
  refine ⟨?_, ?_, ?_⟩
  · have h := receiveLoop_honest R ch hch R.length
      ⟨L.getD [], (L.getD []).length, [], [.fileOpen]⟩ hL (by omega)
    simp only [receive, h]
    simp [List.append_assoc]
  · intro h
    exact chunkProg_getLast ch hch R.length _ _ h (by omega)
  · intro rs' ch' f'
    rfl

theorem receive_chunk_accounting_witness :
    (chunkProg 2 3 0 3).getLast? = some 3 :=
  (receive_chunk_accounting [1, 1, 1] none 2 (by decide) (by decide)).2.1 (by decide)

/-- C5: a chunk response with a status other than 206 makes the loop
raise `HttpError` carrying that very status, with exactly the bytes of
the earlier successful chunks still in the file and no further request
issued; and the destination handle of a `receive` invocation is opened
exactly once, first, and closed last on every exit path, whatever the
transport answers and however the run ends. -/
theorem receive_abort_and_close (tr : Transport) (L : Option (List Nat))
    (rs ch fuel : Nat) (s : RecvState) :
    (s.localSize < rs →
      (tr s.localSize (s.localSize + ch - 1)).status ≠ 206 →
      receiveLoop tr ch rs (fuel + 1) s =
        ({ s with events := s.events ++ [.rangeReq s.localSize (s.localSize + ch - 1)] },
          .raised (.httpError (tr s.localSize (s.localSize + ch - 1)).status))) ∧
    (∃ mid, (receive tr L rs ch fuel).1.events = .fileOpen :: (mid ++ [.fileClose]) ∧
      Event.fileOpen ∉ mid ∧ Event.fileClose ∉ mid) := by
  constructor
  · intro hlt hst
    exact receiveLoop_abort tr ch rs fuel s hlt hst
  · obtain ⟨ex, hex, hmem⟩ := receiveLoop_events_extra tr ch rs fuel
      ⟨L.getD [], (L.getD []).length, [], [.fileOpen]⟩
    refine ⟨ex, ?_, ?_, ?_⟩
    · simp only [receive, hex]
      simp
    · intro hin
      exact (hmem _ hin).1 rfl
    · intro hin
      exact (hmem _ hin).2 rfl

theorem receive_abort_and_close_witness :
    receiveLoop (fun _ _ => ⟨500, 0, []⟩) 1 5 1 ⟨[], 0, [], []⟩ =
      (⟨[], 0, [], [.rangeReq 0 0]⟩, .raised (.httpError 500)) :=
  (receive_abort_and_close (fun _ _ => ⟨500, 0, []⟩) (some []) 5 1 0
    ⟨[], 0, [], []⟩).1 (by decide) (by decide)

/-- C7: `receive` is idempotent and resumable against an unchanged
remote `R`: a completed download leaves the file equal to `R`; running
`receive` again finds the local size equal to the remote size, issues
no range request, writes nothing and leaves the contents unchanged;
and resuming from a destination holding the first `N` bytes produces a
file byte-identical to an uninterrupted download while writing exactly
the remaining `R.length - N` bytes. -/
theorem receive_idempotent_resumable (R : List Nat) (N ch : Nat)
    (hch : 0 < ch) (hN : N ≤ R.length) :
    (receive (driveTransport R) none R.length ch R.length).1.file = R ∧
    receive (driveTransport R) (some R) R.length ch R.length =
      ({ file := R, localSize := R.length, progress := []
         events := [.fileOpen, .fileClose] }, .done) ∧
    (receive (driveTransport R) (some (R.take N)) R.length ch R.length).1.file = R ∧
    writtenBytes
      (receive (driveTransport R) (some (R.take N)) R.length ch R.length).1.events =
      R.length - N := by
  have htn : (R.take N).length = N := by
    simp [List.length_take]
    omega
  have hrun := receiveLoop_honest R ch hch R.length
    ⟨R.take N, (R.take N).length, [], [.fileOpen]⟩
    (by show (R.take N).length ≤ R.length; rw [htn]; exact hN)
    (by show R.length - (R.take N).length ≤ R.length; omega)
  refine ⟨?_, ?_, ?_, ?_⟩
  · have h := receiveLoop_honest R ch hch R.length ⟨[], 0, [], [.fileOpen]⟩
      (by simp) (by omega)
    simp only [receive, Option.getD_none, List.length_nil, h]
    simp
  · have h := receiveLoop_stop (driveTransport R) ch R.length R.length
      ⟨R, R.length, [], [.fileOpen]⟩ (by simp)
    simp only [receive, Option.getD_some, h]
    simp
  · simp only [receive, Option.getD_some, hrun]
    simp [htn, List.take_append_drop]
  · simp only [receive, Option.getD_some, hrun]
    rw [writtenBytes_append]
    have h1 : writtenBytes [Event.fileOpen] = 0 := by simp [writtenBytes]
    have h2 : writtenBytes [Event.fileClose] = 0 := by simp [writtenBytes]
    rw [writtenBytes_append, h1, h2,
      recvEvents_writtenBytes R ch hch R.length (R.take N).length
        (by omega) (by omega), htn]
    omega

theorem receive_idempotent_resumable_witness :
    (receive (driveTransport [5, 6, 7]) (some [5]) 3 2 3).1.file = [5, 6, 7] :=
  (receive_idempotent_resumable [5, 6, 7] 1 2 (by decide) (by decide)).2.2.1

/-- C2: on a resume-incomplete (308) chunk round-trip with the offset
`p` known, `next_chunk` updates the running digest with exactly the
bytes just sent and compares it with the digest the remote echoes; on
mismatch it raises the checksum-integrity error and
`_resumable_progress` stays at `p`; on match it advances
`_resumable_progress` by exactly the chunk length. -/
theorem next_chunk_checksum_integrity (md5hex : List Nat → String)
    (media : MediaBody) (initUri : String) (probeEnd : Nat) (resp : ChunkResp)
    (st : UploadState) (u : String) (p : Nat)
    (huri : st.resumableUri = some u) (hp : st.resumableProgress = some p)
    (hbody : resp.respBody = "") (hcode : resp.statusCode = "308") :
    (resp.xRangeMd5 ≠ md5hex (st.rangeMd5 ++ chunkBytes media p) →
      next_chunk md5hex media initUri probeEnd resp st =
        ({ st with rangeMd5 := st.rangeMd5 ++ chunkBytes media p },
          [.getBytesEvt p (chunkLen media p),
           .chunkPut p (p + chunkLen media p - 1) media.content.length
             (chunkBytes media p)],
          some .checksumMismatch)) ∧
    (resp.xRangeMd5 = md5hex (st.rangeMd5 ++ chunkBytes media p) →
      next_chunk md5hex media initUri probeEnd resp st =
        ({ st with rangeMd5 := st.rangeMd5 ++ chunkBytes media p
                   resumableProgress := some (p + chunkLen media p) },
          [.getBytesEvt p (chunkLen media p),
           .chunkPut p (p + chunkLen media p - 1) media.content.length
             (chunkBytes media p)],
          none)) := by
  constructor
  · intro hne
    simp only [chunkBytes, chunkLen] at hne
    simp [next_chunk, resumableProgressGet, resumableUriGet, hp, huri, hbody,
      hcode, hne, chunkBytes, chunkLen]
  · intro heq
    simp only [chunkBytes, chunkLen] at heq
    simp [next_chunk, resumableProgressGet, resumableUriGet, hp, huri, hbody,
      hcode, heq, chunkBytes, chunkLen]

theorem next_chunk_checksum_integrity_witness :
    next_chunk (fun _ => "h") ⟨[1, 2, 3, 4, 5], 2⟩ "u" 0 ⟨"308", "x", ""⟩
        ⟨some "uri", some 0, []⟩ =
      (⟨some "uri", some 0, [1, 2]⟩,
        [.getBytesEvt 0 2, .chunkPut 0 1 5 [1, 2]], some .checksumMismatch) :=
  (next_chunk_checksum_integrity (fun _ => "h") ⟨[1, 2, 3, 4, 5], 2⟩ "u" 0
    ⟨"308", "x", ""⟩ ⟨some "uri", some 0, []⟩ "uri" 0 rfl rfl rfl rfl).1
    (by decide)

/-- C8: when the confirmed offset is not yet known in this process but
the session is established, the first `next_chunk` issues the
zero-length probe carrying the total size before anything else, recovers
the offset as one past the end of the echoed range (`probeEnd + 1`), and
only then reads the chunk bytes starting at that offset and sends them
with the matching Content-Range. -/
theorem resume_probe_before_first_chunk (md5hex : List Nat → String)
    (media : MediaBody) (initUri : String) (probeEnd : Nat) (resp : ChunkResp)
    (st : UploadState) (u : String)
    (huri : st.resumableUri = some u) (hp : st.resumableProgress = none) :
    (next_chunk md5hex media initUri probeEnd resp st).2.1 =
      [.probe media.content.length,
       .getBytesEvt (probeEnd + 1) (chunkLen media (probeEnd + 1)),
       .chunkPut (probeEnd + 1)
         (probeEnd + 1 + chunkLen media (probeEnd + 1) - 1)
         media.content.length (chunkBytes media (probeEnd + 1))] := by
  simp only [next_chunk, resumableProgressGet, resumableUriGet, hp, huri]
  split
  · simp [chunkBytes, chunkLen]
  · split
    · split
      · simp [chunkBytes, chunkLen]
      · simp [chunkBytes, chunkLen]
    · simp [chunkBytes, chunkLen]

theorem resume_probe_before_first_chunk_witness :
    (next_chunk (fun _ => "h") ⟨[1, 2, 3, 4, 5], 2⟩ "u" 1 ⟨"308", "h", ""⟩
      ⟨some "uri", none, []⟩).2.1 =
      [.probe 5, .getBytesEvt 2 2, .chunkPut 2 3 5 [3, 4]] :=
  resume_probe_before_first_chunk (fun _ => "h") ⟨[1, 2, 3, 4, 5], 2⟩ "u" 1
    ⟨"308", "h", ""⟩ ⟨some "uri", none, []⟩ "uri" rfl rfl

theorem dropWhile_cons_false (p : Char → Bool) (c : Char) (l : List Char)
    (h : p c = false) : (c :: l).dropWhile p = c :: l := by
  simp [List.dropWhile_cons, h]

theorem dropWhile_eq_self_append (p : Char → Bool) (x y : List Char)
    (hx : x.dropWhile p = x) (hne : x ≠ []) :
    (x ++ y).dropWhile p = x ++ y := by
  cases x with
  | nil => exact absurd rfl hne
  | cons c t =>
    have hpc : p c = false := by
      cases hc : p c
      · rfl
      · rw [List.dropWhile_cons, if_pos hc] at hx
        have h1 := congrArg List.length hx
        have h2 := (List.dropWhile_sublist (l := t) p).length_le
        simp at h1
        omega
    rw [List.cons_append, dropWhile_cons_false p c _ hpc]

theorem takeWhile_all_append (p : Char → Bool) (s t : List Char)
    (h : ∀ c ∈ s, p c = true) : (s ++ t).takeWhile p = s ++ t.takeWhile p := by
  induction s with
  | nil => simp
  | cons c s' ih =>
    rw [List.cons_append, List.takeWhile_cons, if_pos (h c (by simp)),
      ih (fun c hc => h c (by simp [hc])), List.cons_append]

theorem dropWhile_all_append (p : Char → Bool) (s t : List Char)
    (h : ∀ c ∈ s, p c = true) : (s ++ t).dropWhile p = t.dropWhile p := by
  induction s with
  | nil => simp
  | cons c s' ih =>
    rw [List.cons_append, List.dropWhile_cons, if_pos (h c (by simp))]
    exact ih (fun c hc => h c (by simp [hc]))

theorem dropWhile_eq_self_of_all (p : Char → Bool) (l : List Char)
    (h : ∀ c ∈ l, p c = false) : l.dropWhile p = l := by
  cases l with
  | nil => rfl
  | cons c t => exact dropWhile_cons_false p c t (h c (by simp))

theorem rtrim_eq_self_of_all (l : List Char) (h : ∀ c ∈ l, (c == '/') = false) :
    rtrim l = l := by
  unfold rtrim
  rw [dropWhile_eq_self_of_all _ _ (fun c hc => h c (by simpa using hc))]
  simp

theorem stripSl_clean (seg rem : List Char) (hsegne : seg ≠ [])
    (hseg : ∀ c ∈ seg, (c == '/') = false) (hremne : rem ≠ [])
    (hrem : rtrim rem = rem) :
    stripSl (seg ++ '/' :: rem) = seg ++ '/' :: rem := by
  unfold stripSl
  have hsegself : seg.dropWhile (fun c => c == '/') = seg :=
    dropWhile_eq_self_of_all _ seg hseg
  rw [dropWhile_eq_self_append _ seg ('/' :: rem) hsegself hsegne]
  unfold rtrim
  have hrev : (seg ++ '/' :: rem).reverse = rem.reverse ++ '/' :: seg.reverse := by
    simp
  rw [hrev]
  have hremrev : rem.reverse.dropWhile (fun c => c == '/') = rem.reverse := by
    have h1 := congrArg List.reverse hrem
    unfold rtrim at h1
    simpa using h1
  rw [dropWhile_eq_self_append _ rem.reverse ('/' :: seg.reverse) hremrev
    (by simp [hremne])]
  simp

theorem stripSl_single (seg : List Char) (hseg : ∀ c ∈ seg, (c == '/') = false) :
    stripSl seg = seg := by
  unfold stripSl
  rw [dropWhile_eq_self_of_all _ seg hseg]
  exact rtrim_eq_self_of_all seg hseg

theorem child_from_path_congr (st : Store) (self : Node) (p1 p2 : List Char)
    (h : stripSl p1 = stripSl p2) :
    child_from_path st self p1 = child_from_path st self p2 := by
  conv_lhs => rw [child_from_path]
  conv_rhs => rw [child_from_path]
  rw [h]

theorem stripSl_cons_slash (p : List Char) : stripSl ('/' :: p) = stripSl p := by
  unfold stripSl
  rw [List.dropWhile_cons]
  simp

theorem stripSl_append_slash (p : List Char) :
    stripSl (p ++ ['/']) = stripSl p := by
  unfold stripSl
  rw [List.dropWhile_append]
  by_cases hx : (p.dropWhile (fun c => c == '/')).isEmpty
  · rw [if_pos hx]
    have : p.dropWhile (fun c => c == '/') = [] := by
      simpa [List.isEmpty_iff] using hx
    rw [this]
    simp [List.dropWhile, rtrim]
  · rw [if_neg hx]
    unfold rtrim
    rw [List.reverse_append]
    simp only [List.reverse_cons, List.reverse_nil, List.nil_append,
      List.singleton_append]
    rw [List.dropWhile_cons]
    simp

theorem child_from_path_single_seg (st : Store) (self : Node) (seg : List Char)
    (hseg : ∀ c ∈ seg, (c == '/') = false) :
    child_from_path st self seg = child st self (String.mk seg) := by
  have hall : ∀ c ∈ seg, (fun c => !(c == '/')) c = true := by
    intro c hc
    simp [hseg c hc]
  have ht : seg.takeWhile (fun c => !(c == '/')) = seg := by
    have h1 := takeWhile_all_append (fun c => !(c == '/')) seg [] hall
    simpa using h1
  have hd : seg.dropWhile (fun c => !(c == '/')) = [] := by
    have h1 := dropWhile_all_append (fun c => !(c == '/')) seg [] hall
    simpa using h1
  conv_lhs => rw [child_from_path]
  rw [stripSl_single seg hseg, ht]
  rcases hc : child st self (String.mk seg) with e | c
  · simp [hc]
  · simp only [hc]
    split
    · rfl
    · next x tail heq =>
      rw [hd] at heq
      cases heq

theorem child_from_path_seg_step (st : Store) (self : Node) (seg rem : List Char)
    (hsegne : seg ≠ []) (hseg : ∀ c ∈ seg, (c == '/') = false)
    (hremne : rem ≠ []) (hrem : rtrim rem = rem) :
    child_from_path st self (seg ++ '/' :: rem) =
      match child st self (String.mk seg) with
      | .error e => .error e
      | .ok none => .error .attributeError
      | .ok (some (.folder fn fi)) => child_from_path st (.folder fn fi) rem
      | .ok (some (.key _ _)) => .error .attributeError := by
  have hall : ∀ c ∈ seg, (fun c => !(c == '/')) c = true := by
    intro c hc
    simp [hseg c hc]
  have ht : (seg ++ '/' :: rem).takeWhile (fun c => !(c == '/')) = seg := by
    rw [takeWhile_all_append _ _ _ hall]
    simp [List.takeWhile_cons]
  have hd : (seg ++ '/' :: rem).dropWhile (fun c => !(c == '/')) = '/' :: rem := by
    rw [dropWhile_all_append _ _ _ hall]
    simp [List.dropWhile_cons]
  conv_lhs => rw [child_from_path]
  rw [stripSl_clean seg rem hsegne hseg hremne hrem, ht]
  rcases hc : child st self (String.mk seg) with e | c
  · simp [hc]
  · simp only [hc]
    split
    · next heq =>
      rw [hd] at heq
      cases heq
    · next x tail heq =>
      rw [hd] at heq
      injection heq with h1 h2
      subst h2
      rcases c with _ | n
      · rfl
      · rcases n with ⟨fn, fi⟩ | ⟨kn, ki⟩
        · rfl
        · rfl

theorem child_ok_none (st : Store) (self : Node) (nm : String)
    (h : child st self nm = .ok none) : listQuery st self.id nm = [] := by
  rcases hq : listQuery st self.id nm with _ | ⟨e, t⟩
  · rfl
  · rcases t with _ | ⟨e2, t2⟩
    · simp [child, hq] at h
    · have hlen : 1 < (e :: e2 :: t2).length := by
        simp
      simp [child, hq, hlen] at h

theorem withId_none_id (n : Node) : (n.withId none).id = none := by
  cases n <;> rfl

/-- C3: `child(name)` returns `None` when the store holds no entry of
that name under this node (a normal outcome, not an error), raises the
ambiguity error whenever two or more such entries exist — never
returning either entry — and on exactly one match returns a
`Remotefolder` when the entry is of the folder kind and a `Key`
otherwise. -/
theorem child_exactly_one (st : Store) (self : Node) (nm : String) :
    (listQuery st self.id nm = [] → child st self nm = .ok none) ∧
    (2 ≤ (listQuery st self.id nm).length →
      child st self nm = .error (.ambiguous nm)) ∧
    (∀ e, listQuery st self.id nm = [e] →
      child st self nm =
        .ok (some (if e.isFolder then Node.folder e.name (some e.id)
          else Node.key e.name (some e.id)))) := by
  refine ⟨?_, ?_, ?_⟩
  · intro h
    simp [child, h]
  · intro h
    have h1 : 1 < (listQuery st self.id nm).length := by omega
    simp [child, h1]
  · intro e h
    simp [child, h, reply_to_object]

theorem child_exactly_one_witness :
    child ⟨[⟨1, "d", 0, false⟩, ⟨2, "d", 0, false⟩], 3⟩
        (.folder "root" (some 0)) "d" = .error (.ambiguous "d") ∧
    child ⟨[⟨1, "d", 0, false⟩, ⟨2, "d", 0, false⟩], 3⟩
        (.folder "root" (some 0)) "zzz" = .ok none :=
  ⟨(child_exactly_one ⟨[⟨1, "d", 0, false⟩, ⟨2, "d", 0, false⟩], 3⟩
      (.folder "root" (some 0)) "d").2.1 (by decide),
   (child_exactly_one ⟨[⟨1, "d", 0, false⟩, ⟨2, "d", 0, false⟩], 3⟩
      (.folder "root" (some 0)) "zzz").1 (by decide)⟩

/-- C4: `mkdir(name)` is an idempotent create: an existing folder child
is returned unchanged with no create request; an existing leaf child
raises the type-conflict error; with no child a folder entry is created
under this node; and a second `mkdir` of the same name returns a node
with the same remote id, with the store unchanged and no second create
request issued. -/
theorem mkdir_idempotent_create (st : Store) (self : Node) (nm : String)
    (pid : Nat) (hid : self.id = some pid) :
    (∀ fn fi, child st self nm = .ok (some (.folder fn fi)) →
      mkdir st self nm = (.ok (.folder fn fi), st, [.listCall (some pid) nm])) ∧
    (∀ kn ki, child st self nm = .ok (some (.key kn ki)) →
      (mkdir st self nm).1 = .error (.existsNotFolder nm)) ∧
    (child st self nm = .ok none →
      mkdir st self nm =
        (.ok (.folder nm (some st.nextId)),
          ⟨st.entries ++ [⟨st.nextId, nm, pid, true⟩], st.nextId + 1⟩,
          [.listCall (some pid) nm, .createCall (some pid) nm true])) ∧
    (child st self nm = .ok none →
      mkdir (mkdir st self nm).2.1 self nm =
        (.ok (.folder nm (some st.nextId)), (mkdir st self nm).2.1,
          [.listCall (some pid) nm])) := by
  refine ⟨?_, ?_, ?_, ?_⟩
  · intro fn fi h
    simp [mkdir, h, hid]
  · intro kn ki h
    simp [mkdir, h]
  · intro h
    simp [mkdir, h, hid, filesCreate]
  · intro h
    have hq := child_ok_none st self nm h
    have hfst : mkdir st self nm =
        (.ok (.folder nm (some st.nextId)),
          ⟨st.entries ++ [⟨st.nextId, nm, pid, true⟩], st.nextId + 1⟩,
          [.listCall (some pid) nm, .createCall (some pid) nm true]) := by
      simp [mkdir, h, hid, filesCreate]
    have hq2 : listQuery
        ⟨st.entries ++ [⟨st.nextId, nm, pid, true⟩], st.nextId + 1⟩
        self.id nm = [⟨st.nextId, nm, pid, true⟩] := by
      simp only [listQuery] at hq ⊢
      rw [List.filter_append, hq]
      simp [hid]
    have hch2 : child
        ⟨st.entries ++ [⟨st.nextId, nm, pid, true⟩], st.nextId + 1⟩
        self nm = .ok (some (.folder nm (some st.nextId))) := by
      simp [child, hq2, reply_to_object]
    rw [hfst]
    simp [mkdir, hch2, hid]

theorem mkdir_idempotent_create_witness :
    mkdir ⟨[], 7⟩ (.folder "root" (some 0)) "x" =
      (.ok (.folder "x" (some 7)), ⟨[⟨7, "x", 0, true⟩], 8⟩,
        [.listCall (some 0) "x", .createCall (some 0) "x" true]) ∧
    mkdir ⟨[⟨7, "x", 0, true⟩], 8⟩ (.folder "root" (some 0)) "x" =
      (.ok (.folder "x" (some 7)), ⟨[⟨7, "x", 0, true⟩], 8⟩,
        [.listCall (some 0) "x"]) := by
  constructor
  · exact (mkdir_idempotent_create ⟨[], 7⟩ (.folder "root" (some 0)) "x" 0
      rfl).2.2.1 rfl
  · exact (mkdir_idempotent_create ⟨[], 7⟩ (.folder "root" (some 0)) "x" 0
      rfl).2.2.2 rfl

/-- C6: `child_from_path` ignores leading and trailing slashes, resolves
a single remaining segment via `child` with an exact name match
(returning `None` — not raising — when the final segment has no match),
and on a multi-segment path resolves the first segment and recurses into
the resolved child, with a `None` or `Key` intermediate failing with the
attribute error rather than returning a value. -/
theorem child_from_path_resolution (st : Store) (self : Node) :
    (∀ p, child_from_path st self ('/' :: p) = child_from_path st self p) ∧
    (∀ p, child_from_path st self (p ++ ['/']) = child_from_path st self p) ∧
    (∀ seg, (∀ c ∈ seg, (c == '/') = false) →
      child_from_path st self seg = child st self (String.mk seg)) ∧
    (∀ seg rem, seg ≠ [] → (∀ c ∈ seg, (c == '/') = false) → rem ≠ [] →
      rtrim rem = rem →
      child_from_path st self (seg ++ '/' :: rem) =
        match child st self (String.mk seg) with
        | .error e => .error e
        | .ok none => .error .attributeError
        | .ok (some (.folder fn fi)) => child_from_path st (.folder fn fi) rem
        | .ok (some (.key _ _)) => .error .attributeError) := by
  refine ⟨?_, ?_, ?_, ?_⟩
  · intro p
    exact child_from_path_congr st self _ _ (stripSl_cons_slash p)
  · intro p
    exact child_from_path_congr st self _ _ (stripSl_append_slash p)
  · intro seg hseg
    exact child_from_path_single_seg st self seg hseg
  · intro seg rem h1 h2 h3 h4
    exact child_from_path_seg_step st self seg rem h1 h2 h3 h4

theorem child_from_path_resolution_witness :
    child_from_path ⟨[⟨1, "a", 0, true⟩, ⟨2, "b", 1, true⟩, ⟨3, "c", 2, false⟩], 4⟩
        (.folder "root" (some 0)) ('a' :: '/' :: ['b']) =
      child_from_path ⟨[⟨1, "a", 0, true⟩, ⟨2, "b", 1, true⟩, ⟨3, "c", 2, false⟩], 4⟩
        (.folder "a" (some 1)) ['b'] ∧
    child_from_path ⟨[⟨1, "a", 0, true⟩, ⟨2, "b", 1, true⟩, ⟨3, "c", 2, false⟩], 4⟩
        (.folder "b" (some 2)) ('c' :: '/' :: ['x']) = .error .attributeError :=
  ⟨(child_from_path_resolution
      ⟨[⟨1, "a", 0, true⟩, ⟨2, "b", 1, true⟩, ⟨3, "c", 2, false⟩], 4⟩
      (.folder "root" (some 0))).2.2.2 ['a'] ['b']
      (by decide) (by decide) (by decide) (by decide),
   (child_from_path_resolution
      ⟨[⟨1, "a", 0, true⟩, ⟨2, "b", 1, true⟩, ⟨3, "c", 2, false⟩], 4⟩
      (.folder "b" (some 2))).2.2.2 ['c'] ['x']
      (by decide) (by decide) (by decide) (by decide)⟩

/-- C9: the claim says `upload_key` fails with an already-exists error
when a child of that name exists; the source instead crashes while
formatting that error message (`name` is unbound — the parameter is
`key`), raising `NameError`.  The create path of the claim holds: with
no existing child a single-shot create is issued and a `Key` carrying
the assigned id is returned.  This theorem evaluates both paths at the
failing input's store. -/
theorem upload_key_name_error :
    upload_key ⟨[⟨1, "f", 0, true⟩, ⟨2, "k", 1, false⟩], 3⟩
        (.folder "f" (some 1)) "k" =
      (.error .nameError, ⟨[⟨1, "f", 0, true⟩, ⟨2, "k", 1, false⟩], 3⟩,
        [.listCall (some 1) "k"]) ∧
    upload_key ⟨[⟨1, "f", 0, true⟩, ⟨2, "k", 1, false⟩], 3⟩
        (.folder "f" (some 1)) "new" =
      (.ok (.key "new" (some 3)),
        ⟨[⟨1, "f", 0, true⟩, ⟨2, "k", 1, false⟩, ⟨3, "new", 1, false⟩], 4⟩,
        [.listCall (some 1) "new", .createCall (some 1) "new" false]) :=
  ⟨rfl, rfl⟩

/-- C10 counterexample: after `remove()` the node's id is cleared, but
`child` on the tombstone then formats the query with the literal
`'None'`, matches nothing, and returns `None` — a successful not-found
lookup, not a failure — even though an entry of that very name is still
filed under the removed folder's old id.  So "every further operation
on that node fails" is false at this input. -/
theorem remove_tombstone_child_not_fail :
    remove ⟨[⟨1, "f", 0, true⟩, ⟨2, "k", 1, false⟩], 3⟩
        (.folder "f" (some 1)) =
      .ok (.folder "f" none, ⟨[⟨2, "k", 1, false⟩], 3⟩) ∧
    child ⟨[⟨2, "k", 1, false⟩], 3⟩ (.folder "f" none) "k" = .ok none :=
  ⟨rfl, rfl⟩

/-- C10 (amended): `remove()` deletes the remote entry identified by the
node's id and clears the id, leaving a tombstone; a second `remove` on
the tombstone fails (its cleared id names no entry), but `child` on the
tombstone silently returns not-found (`None`) for every store and name
rather than failing. -/
theorem remove_clears_id_tombstone (st : Store) (self : Node) (i : Nat)
    (hid : self.id = some i)
    (hin : st.entries.any (fun e => e.id == i) = true) :
    remove st self =
      .ok (self.withId none,
        ⟨st.entries.filter (fun e => !(e.id == i)), st.nextId⟩) ∧
    (self.withId none).id = none ∧
    (∀ st' : Store, remove st' (self.withId none) = .error (.httpError 404)) ∧
    (∀ (st' : Store) (nm : String),
      child st' (self.withId none) nm = .ok none) := by
  refine ⟨?_, withId_none_id self, ?_, ?_⟩
  · simp [remove, filesDelete, hid, hin]
  · intro st'
    simp [remove, filesDelete, withId_none_id]
  · intro st' nm
    have hq : listQuery st' (self.withId none).id nm = [] := by
      rw [withId_none_id]
      simp only [listQuery]
      apply List.filter_eq_nil_iff.mpr
      intro a _
      simp
    simp [child, hq]

theorem remove_clears_id_tombstone_witness :
    child ⟨[], 0⟩ (Node.folder "f" none) "x" = .ok none :=
  (remove_clears_id_tombstone ⟨[⟨1, "f", 0, true⟩], 2⟩ (.folder "f" (some 1)) 1
    rfl (by decide)).2.2.2 ⟨[], 0⟩ "x"

end GDrive
